import Mathlib

/-!
Shallow embedding of `acctop.py`, a terminal resource-usage dashboard.

Percentages, byte counts and throughputs are exact rationals (`ℚ`); Python's
`int()` truncation, string repetition and 2-decimal float formatting are
modelled by explicit functions below.  The external collaborators (psutil,
tabulate, the terminal) are modelled as inputs: a partition whose usage read
raises `PermissionError` is an `Option` that is `none`, a failing
`os.get_terminal_size()` is a `none` terminal width, and so on.
-/

/-! ### ANSI color constants (acctop.py lines 44-59) -/

def HEADER_COLOR : String := "\x1b[1;34m"

def RESET_COLOR : String := "\x1b[0m"

def GREEN : String := "\x1b[1;32m"

def YELLOW : String := "\x1b[1;33m"

def RED : String := "\x1b[1;31m"

/-- `lencolors = len(HEADER_COLOR) + len(RESET_COLOR)` (line 54). -/
def lencolors : ℕ := HEADER_COLOR.length + RESET_COLOR.length

/-! ### Python primitives -/

/-- Python `int()` on an exact rational: truncation toward zero. -/
def pytrunc (q : ℚ) : ℤ := if 0 ≤ q then Rat.floor q else -Rat.floor (-q)

/-- Python `c * n` string repetition with an `int` count:
a negative count yields the empty string. -/
def pyrepeat (c : Char) (n : ℤ) : String := String.mk (List.replicate n.toNat c)

/-- A run of `n` spaces (`" " * n`). -/
def spaces (n : ℕ) : String := String.mk (List.replicate n ' ')

/-- Round to the nearest integer, ties to even — the rounding used by
Python's fixed-point float formatting. -/
def round_half_even (q : ℚ) : ℤ :=
  let f := Rat.floor q
  let frac := q - f
  if frac < 1/2 then f
  else if 1/2 < frac then f + 1
  else if f % 2 = 0 then f else f + 1

/-- Two-digit zero-padded rendering of a natural number below 100. -/
def pad2 (n : ℕ) : String := if n < 10 then "0" ++ toString n else toString n

/-- Python `f"{q:.2f}"` for the nonnegative values the program produces:
round to 2 decimals (ties to even) and render with exactly 2 decimals. -/
def format2 (q : ℚ) : String :=
  let n := (round_half_even (q * 100)).toNat
  toString (n / 100) ++ "." ++ pad2 (n % 100)

/-- Python `f"{q:6.2f}"`: the 2-decimal rendering right-justified to width 6. -/
def format_f62 (q : ℚ) : String :=
  let s := format2 q
  pyrepeat ' ' (6 - (s.length : ℤ)) ++ s

/-- Python `str.ljust`. -/
def ljust (s : String) (w : ℕ) : String := s ++ spaces (w - s.length)

/-- Python `f"{s:>w}"` right-justification. -/
def rjust (s : String) (w : ℕ) : String := spaces (w - s.length) ++ s

/-! ### Formatting primitives of acctop.py -/

/-- `get_usage_color(percentage)` (lines 61-68): ANSI color for a usage
percentage. `GREEN` below 50, `YELLOW` from 50 below 80, `RED` from 80. -/
def get_usage_color (percentage : ℚ) : String :=
  if percentage < 50 then GREEN
  else if percentage < 80 then YELLOW
  else RED

/-- The `num_bars = int((percentage / 100) * bar_length)` computation shared
by the three bar renderers (lines 73, 79, 93). -/
def num_bars (percentage : ℚ) (bar_length : ℕ) : ℤ :=
  pytrunc (percentage / 100 * bar_length)

/-- `create_cpu_usage_bar(percentage, bar_length=10)` (lines 70-74). -/
def create_cpu_usage_bar (percentage : ℚ) (bar_length : ℕ := 10) : String :=
  let color := get_usage_color percentage
  let n := num_bars percentage bar_length
  color ++ ("[" ++ pyrepeat '#' n ++ pyrepeat ' ' ((bar_length : ℤ) - n) ++ "] " ++
    format_f62 percentage ++ "%" ++ RESET_COLOR)

/-- `create_memory_usage_bar(percentage, bar_length=30)` (lines 76-80). -/
def create_memory_usage_bar (percentage : ℚ) (bar_length : ℕ := 30) : String :=
  let color := get_usage_color percentage
  let n := num_bars percentage bar_length
  color ++ ("[" ++ pyrepeat '#' n ++ pyrepeat ' ' ((bar_length : ℤ) - n) ++ "] " ++
    format_f62 percentage ++ "%" ++ RESET_COLOR)

/-- `create_disk_usage_bar(percentage, bar_length=30)` (lines 82-94). -/
def create_disk_usage_bar (percentage : ℚ) (bar_length : ℕ := 30) : String :=
  let color := get_usage_color percentage
  let n := num_bars percentage bar_length
  color ++ ("[" ++ pyrepeat '#' n ++ pyrepeat ' ' ((bar_length : ℤ) - n) ++ "] " ++
    format_f62 percentage ++ "%" ++ RESET_COLOR)

/-- `format_size(size)`, the helper inside `display_disk_usage`
(lines 102-107): TB with 2 decimals from `1024 ** 4` bytes, else GB. -/
def format_size (size : ℕ) : String :=
  if size ≥ 1024 ^ 4 then format2 ((size : ℚ) / 1024 ^ 4) ++ " TB"
  else format2 ((size : ℚ) / 1024 ^ 3) ++ " GB"

/-! ### Disk usage section (lines 96-136) -/

/-- The result of `psutil.disk_usage(mountpoint)` for one partition. -/
structure DiskUsage where
  total : ℕ
  used : ℕ
  free : ℕ
  percent : ℚ
deriving DecidableEq

/-- One row of `display_disk_usage`'s `table_data` (lines 112-131): the
`try` branch on a successful usage read, the `except PermissionError`
branch (modelled as `none`) substituting the literal sentinel in the four
non-mountpoint fields. -/
def disk_usage_row (mountpoint : String) (usage : Option DiskUsage) : List String :=
  match usage with
  | some du =>
      [mountpoint, format_size du.total, format_size du.used, format_size du.free,
       create_disk_usage_bar du.percent]
  | none =>
      [mountpoint, "Permission Denied", "Permission Denied", "Permission Denied",
       "Permission Denied"]

/-- `display_disk_usage`'s partition loop building `table_data`. -/
def disk_table_data (partitions : List (String × Option DiskUsage)) : List (List String) :=
  partitions.map (fun p => disk_usage_row p.1 p.2)

/-! ### CPU section and layout engine (lines 173-244) -/

/-- `get_cpu_columns(column_width)` (lines 173-195).  A `none` terminal
width models `os.get_terminal_size()` raising `OSError`, in which case the
code returns 1. -/
def get_cpu_columns (terminal_width : Option ℕ) (column_width : ℕ) : ℕ :=
  match terminal_width with
  | some w => w / column_width
  | none => 1

/-- One `entry` of `display_cpu_usage_in_columns` (line 232):
`f"Core {i:>{core_number_width}}: {bar}  "`. -/
def cpu_entry (core_number_width : ℕ) (i : ℕ) (p : ℚ) : String :=
  "Core " ++ rjust (toString i) core_number_width ++ ": " ++ create_cpu_usage_bar p ++ "  "

/-- The row-building loop of `display_cpu_usage_in_columns`
(lines 228-241), returning each flushed `row_data` (padded with
`" " * column_width` blanks up to `columns` cells).  `i` is the running
index, `n` the total number of entries, `row_data` the pending row. -/
def cpu_rows_go (columns column_width n : ℕ) : ℕ → List String → List String → List (List String)
  | _, _, [] => []
  | i, row_data, entry :: rest =>
    let row_data2 := row_data ++ [entry]
    if (i + 1) % columns = 0 ∨ i = n - 1 then
      (row_data2 ++ List.replicate (columns - row_data2.length) (spaces column_width)) ::
        cpu_rows_go columns column_width n (i + 1) [] rest
    else
      cpu_rows_go columns column_width n (i + 1) row_data2 rest

/-- The rows of `display_cpu_usage_in_columns` for a given entry list. -/
def cpu_rows (columns column_width : ℕ) (entries : List String) : List (List String) :=
  cpu_rows_go columns column_width entries.length 0 [] entries

/-- `row_format.format(*row_data)` (lines 225, 240): each cell left-justified
to `column_width`. -/
def cpu_render_row (column_width : ℕ) (row : List String) : String :=
  String.join (row.map (fun s => ljust s column_width))

/-- `average_cpu_usage = sum(cpu_percentages) / len(cpu_percentages)` (line 242). -/
def average_cpu_usage (cpu_percentages : List ℚ) : ℚ :=
  cpu_percentages.sum / cpu_percentages.length

/-- The aggregate row (line 243): the mean of all cores through the same bar
renderer. -/
def average_cpu_usage_string (cpu_percentages : List ℚ) : String :=
  "Average CPU Usage: " ++ create_cpu_usage_bar (average_cpu_usage cpu_percentages)

/-- Row-major chunking with blank-cell padding: the layout
`display_cpu_usage_in_columns` is specified to produce.  The first `columns`
entries form the first row, and the final partial row is padded with
`columns`-width blank cells. -/
def padRow (columns column_width : ℕ) (row : List String) : List String :=
  row ++ List.replicate (columns - row.length) (spaces column_width)

/-- Chunk an entry list into rows of `columns` cells, padding the last row. -/
def chunkPad (columns column_width : ℕ) : List String → List (List String)
  | [] => []
  | e :: rest =>
    padRow columns column_width (e :: rest.take (columns - 1)) ::
      chunkPad columns column_width (rest.drop (columns - 1))
termination_by l => l.length
decreasing_by simp; omega

/-! ### Per-user aggregation section (lines 246-298) -/

/-- The fields of `proc.info` used by `display_user_usage`: a process that was
successfully queried (vanished/denied/zombie processes are skipped by the
source and are simply absent from the input list). -/
structure ProcInfo where
  username : String
  cpu_percent : ℚ
  memory_percent : ℚ
deriving DecidableEq

/-- One user's accumulator: `{'cpu': 0.0, 'memory': 0.0, 'processes': 0}`. -/
structure UserData where
  cpu : ℚ
  memory : ℚ
  processes : ℕ
deriving DecidableEq

/-- Accumulate one process into the per-user `defaultdict` (lines 273-277),
keyed by username in insertion order. -/
def update_user : List (String × UserData) → String → ℚ → ℚ → List (String × UserData)
  | [], u, c, m => [(u, ⟨c, m, 1⟩)]
  | (v, d) :: rest, u, c, m =>
    if v = u then (v, ⟨d.cpu + c, d.memory + m, d.processes + 1⟩) :: rest
    else (v, d) :: update_user rest u c m

/-- The process-iteration loop of `display_user_usage` (lines 266-279):
processes with an empty username are skipped (`if username:`). -/
def user_usage (procs : List ProcInfo) : List (String × UserData) :=
  procs.foldl
    (fun acc p =>
      if p.username = "" then acc
      else update_user acc p.username p.cpu_percent p.memory_percent)
    []

/-- Association-list lookup in the per-user accumulator. -/
def lookup_user (u : String) : List (String × UserData) → Option UserData
  | [] => none
  | (v, d) :: rest => if v = u then some d else lookup_user u rest

/-- `cpu_threshold = 0.01` (line 257). -/
def cpu_threshold : ℚ := 1/100

/-- `memory_threshold = 0.01` (line 258). -/
def memory_threshold : ℚ := 1/100

/-- One row of `filtered_user_data` (lines 283-288): username, colored
CPU% normalized by the core count, colored raw memory%, process count. -/
def user_row (num_cpus : ℚ) (user : String) (usage : UserData) : List String :=
  [user,
   get_usage_color (usage.cpu / num_cpus) ++ (format2 (usage.cpu / num_cpus) ++ RESET_COLOR),
   get_usage_color usage.memory ++ (format2 usage.memory ++ RESET_COLOR),
   toString usage.processes]

/-- The `filtered_user_data` comprehension (lines 282-291): keep a user when
`usage['cpu'] / num_cpus > cpu_threshold or usage['memory'] > memory_threshold`. -/
def filtered_user_data (num_cpus : ℚ) (procs : List ProcInfo) : List (List String) :=
  ((user_usage procs).filter
      (fun x => decide (x.2.cpu / num_cpus > cpu_threshold ∨ x.2.memory > memory_threshold))).map
    (fun x => user_row num_cpus x.1 x.2)

/-- The outcome of `display_user_usage` (lines 294-298): the filtered table
rows (the `tabulate` box-drawing is external and not modelled), or the
literal fallback message when no user passes the thresholds. -/
def display_user_usage (num_cpus : ℚ) (procs : List ProcInfo) : List (List String) ⊕ String :=
  match filtered_user_data num_cpus procs with
  | [] => Sum.inr "No users exceed the specified thresholds.\n"
  | rows => Sum.inl rows

/-! ### Disk I/O section (lines 357-420) -/

/-- `read_speed` (line 400):
`(1.0 / poll_interval) * (stats.read_bytes - prev_stats.read_bytes) / (1024 ** 2)`. -/
def read_speed (poll_interval : ℚ) (curr_read_bytes prev_read_bytes : ℕ) : ℚ :=
  1 / poll_interval * ((curr_read_bytes : ℚ) - (prev_read_bytes : ℚ)) / 1024 ^ 2

/-- `write_speed` (line 401), computed from the write-byte counters exactly
as `read_speed` is from the read-byte counters. -/
def write_speed (poll_interval : ℚ) (curr_write_bytes prev_write_bytes : ℕ) : ℚ :=
  1 / poll_interval * ((curr_write_bytes : ℚ) - (prev_write_bytes : ℚ)) / 1024 ^ 2

/-- `tables[i % N].append(row)`: append `row` to sub-table `k`. -/
def append_at (tables : List (List String)) (k : ℕ) (row : String) : List (List String) :=
  tables.set k (tables.getD k [] ++ [row])

/-- The distribution loop of `display_disk_io` (lines 397-403): `N` empty
sub-tables, disk `i`'s row appended to sub-table `i % N`. -/
def disk_io_tables (N : ℕ) (rows : List String) : List (List String) :=
  rows.enum.foldl (fun tables p => append_at tables (p.1 % N) p.2) (List.replicate N [])

/-- `tables_side_by_side(tables)` nested in `display_disk_io`
(lines 406-418), transcribed with its actual indentation: both
`disk_io_rows.append(" ".join(row_parts))` and the final blank `row_parts`
append sit OUTSIDE the `for i in range(max_len)` loop, so only the
`row_parts` of the final index `max_len - 1` is ever appended and the
result is a single joined line.  `header_len` is `len(header)`.  When
`max_len = 0` the Python code would raise `NameError` (`row_parts` is never
bound); that case is unreachable in the program (there is at least one
disk) and is modelled as the empty string. -/
def tables_side_by_side (header_len : ℕ) (tables : List (List String)) : String :=
  let max_len := (tables.map List.length).foldl max 0
  if max_len = 0 then ""
  else
    let i := max_len - 1
    let row_parts := tables.map (fun table => table.getD i (spaces header_len)) ++
      [spaces header_len]
    String.intercalate " " row_parts

/-! ### Helper lemmas -/

/-- `Rat.floor` agrees with the mathematical floor. -/
lemma rat_floor_eq (q : ℚ) : Rat.floor q = ⌊q⌋ := by
  rw [Rat.floor_def', ← Rat.floor_def]

/-- On nonnegative rationals Python truncation is the floor. -/
lemma pytrunc_nonneg (q : ℚ) (hq : 0 ≤ q) : pytrunc q = ⌊q⌋ := by
  rw [pytrunc, if_pos hq, rat_floor_eq]

/-- A nonpositive repetition count yields the empty string. -/
lemma pyrepeat_nonpos (c : Char) (n : ℤ) (hn : n ≤ 0) : pyrepeat c n = "" := by
  rw [pyrepeat, Int.toNat_of_nonpos hn]
  rfl

/-- The three-way case split of `get_usage_color`. -/
lemma color_cases (p : ℚ) :
    (p < 50 ∧ get_usage_color p = GREEN) ∨
    (50 ≤ p ∧ p < 80 ∧ get_usage_color p = YELLOW) ∨
    (80 ≤ p ∧ get_usage_color p = RED) := by
  unfold get_usage_color
  split_ifs with h1 h2
  · exact Or.inl ⟨h1, rfl⟩
  · exact Or.inr (Or.inl ⟨le_of_not_lt h1, h2, rfl⟩)
  · exact Or.inr (Or.inr ⟨le_of_not_lt h2, rfl⟩)

/-! ### Claim theorems -/

/-- C1: the color-band classifier returns the Low color (`GREEN`) iff
`p < 50`, the Medium color (`YELLOW`) iff `50 ≤ p < 80`, and the High color
(`RED`) iff `p ≥ 80`; exactly 50 is Medium and exactly 80 is High; and the
same classifier supplies the color of the CPU, memory and disk bars and of
both per-user usage cells. -/
theorem c1_color_band_policy (p C : ℚ) (u : String) (d : UserData) :
    (get_usage_color p = GREEN ↔ p < 50) ∧
    (get_usage_color p = YELLOW ↔ 50 ≤ p ∧ p < 80) ∧
    (get_usage_color p = RED ↔ 80 ≤ p) ∧
    get_usage_color 50 = YELLOW ∧
    get_usage_color 80 = RED ∧
    (∀ L, ∃ s, create_cpu_usage_bar p L = get_usage_color p ++ s) ∧
    (∀ L, ∃ s, create_memory_usage_bar p L = get_usage_color p ++ s) ∧
    (∀ L, ∃ s, create_disk_usage_bar p L = get_usage_color p ++ s) ∧
    (∃ s, (user_row C u d).getD 1 "" = get_usage_color (d.cpu / C) ++ s) ∧
    (∃ s, (user_row C u d).getD 2 "" = get_usage_color d.memory ++ s) := by
  have hGY : GREEN ≠ YELLOW := by decide
  have hGR : GREEN ≠ RED := by decide
  have hYR : YELLOW ≠ RED := by decide
  refine ⟨?_, ?_, ?_, ?_, ?_, fun L => ⟨_, rfl⟩, fun L => ⟨_, rfl⟩, fun L => ⟨_, rfl⟩,
    ⟨_, rfl⟩, ⟨_, rfl⟩⟩
  · constructor
    · intro h
      rcases color_cases p with ⟨h1, _⟩ | ⟨_, _, hc⟩ | ⟨_, hc⟩
      · exact h1
      · exact absurd (hc.symm.trans h) hGY.symm
      · exact absurd (hc.symm.trans h) hGR.symm
    · intro h1
      rw [get_usage_color, if_pos h1]
  · constructor
    · intro h
      rcases color_cases p with ⟨h1, hc⟩ | ⟨ha, hb, _⟩ | ⟨_, hc⟩
      · exact absurd (hc.symm.trans h) hGY
      · exact ⟨ha, hb⟩
      · exact absurd (hc.symm.trans h) (Ne.symm hYR)
    · intro h1
      rw [get_usage_color, if_neg (not_lt.mpr h1.1), if_pos h1.2]
  · constructor
    · intro h
      rcases color_cases p with ⟨_, hc⟩ | ⟨_, _, hc⟩ | ⟨h1, _⟩
      · exact absurd (hc.symm.trans h) hGR
      · exact absurd (hc.symm.trans h) hYR
      · exact h1
    · intro h1
      rw [get_usage_color, if_neg (not_lt.mpr (by linarith)), if_neg (not_lt.mpr h1)]
  · rw [get_usage_color, if_neg (by norm_num), if_pos (by norm_num)]
  · rw [get_usage_color, if_neg (by norm_num), if_neg (by norm_num)]

/-- C2 counterexample: at percentage 110 with bar length 10 the filled-cell
count is 11, exceeding the bar length, so the count is not clamped to
`[0, L]`. -/
theorem c2_counterexample : num_bars 110 10 = 11 ∧ ¬num_bars 110 10 ≤ 10 := by
  with_unfolding_all decide

/-- C2 (amended): the filled-cell count equals `floor(p/100 · L)` with no
clamping; for `0 ≤ p ≤ 100` it lies in `[0, L]`, while for `p > 100` it may
exceed `L` — rendering still does not fail, the space padding merely
truncates at the empty string. -/
theorem c2_bar_fill (p : ℚ) (L : ℕ) :
    num_bars p L = pytrunc (p / 100 * L) ∧
    (0 ≤ p → num_bars p L = ⌊p / 100 * L⌋) ∧
    (0 ≤ p → 0 ≤ num_bars p L) ∧
    (0 ≤ p → p ≤ 100 → num_bars p L ≤ L) ∧
    ((L : ℤ) - num_bars p L ≤ 0 → pyrepeat ' ' ((L : ℤ) - num_bars p L) = "") ∧
    create_cpu_usage_bar p L =
      get_usage_color p ++ ("[" ++ pyrepeat '#' (num_bars p L) ++
        pyrepeat ' ' ((L : ℤ) - num_bars p L) ++ "] " ++ format_f62 p ++ "%" ++ RESET_COLOR) := by
  have hq : ∀ hp : 0 ≤ p, (0:ℚ) ≤ p / 100 * L := fun hp => by positivity
  refine ⟨rfl, fun hp => pytrunc_nonneg _ (hq hp), fun hp => ?_, fun hp hp100 => ?_,
    fun h => pyrepeat_nonpos _ _ h, rfl⟩
  · rw [num_bars, pytrunc_nonneg _ (hq hp)]
    exact Int.floor_nonneg.mpr (hq hp)
  · rw [num_bars, pytrunc_nonneg _ (hq hp)]
    have h1 : p / 100 * L ≤ (L : ℚ) := by
      have h2 : p / 100 ≤ 1 := (div_le_one (by norm_num)).mpr hp100
      calc p / 100 * L ≤ 1 * L := by
            exact mul_le_mul_of_nonneg_right h2 (Nat.cast_nonneg L)
        _ = (L : ℚ) := one_mul _
    calc ⌊p / 100 * L⌋ ≤ ⌊(L : ℚ)⌋ := Int.floor_le_floor h1
      _ = L := Int.floor_natCast L

/-- C2 witness: the amended theorem instantiated at `p = 50, L = 10` and
its overflow clause at `p = 110, L = 10`. -/
theorem c2_bar_fill_witness :
    (num_bars 50 10 = ⌊(50 : ℚ) / 100 * 10⌋ ∧ 0 ≤ num_bars 50 10 ∧ num_bars 50 10 ≤ 10) ∧
    pyrepeat ' ' ((10 : ℤ) - num_bars 110 10) = "" := by
  have h := c2_bar_fill 50 10
  have h110 := c2_bar_fill 110 10
  exact ⟨⟨h.2.1 (by norm_num), h.2.2.1 (by norm_num), h.2.2.2.1 (by norm_num) (by norm_num)⟩,
    h110.2.2.2.2.1 (by with_unfolding_all decide)⟩

/-- C3 (code bug): the CPU column count is the plain floor division of the
terminal width by the column width, with no minimum applied on the success
path — a terminal of width 50 with a 60-wide column yields 0 columns, not
the claimed minimum of 1 (the renderer then computes `(i + 1) % 0`, a
`ZeroDivisionError` in Python).  The fixed fallback of 1 applies only when
the terminal size cannot be read at all. -/
theorem c3_columns_floor_no_minimum :
    (∀ w cw, get_cpu_columns (some w) cw = w / cw) ∧
    get_cpu_columns (some 50) 60 = 0 ∧
    ¬1 ≤ get_cpu_columns (some 50) 60 ∧
    get_cpu_columns none 60 = 1 :=
  ⟨fun w cw => rfl, rfl, by decide, rfl⟩

/-- C4 (code bug): disks are indeed distributed round-robin by index modulo
the sub-table count, but `tables_side_by_side` emits a single line — only
the row of the last index of the longest sub-table — because the append to
`disk_io_rows` sits outside the row loop; rows `r0` and `r1` are absent
from the output. -/
theorem c4_side_by_side_single_line :
    disk_io_tables 2 ["r0", "r1", "r2"] = [["r0", "r2"], ["r1"]] ∧
    tables_side_by_side 4 [["r0", "r2"], ["r1"]] = "r2" ++ spaces 10 ∧
    disk_io_tables 1 ["r0", "r1"] = [["r0", "r1"]] ∧
    tables_side_by_side 1 [["r0", "r1"]] = "r1" ++ spaces 2 := by
  refine ⟨?_, ?_, ?_, ?_⟩ <;> decide

/-- C6: the byte-size formatter renders at least `2^40` bytes in TB with two
decimals and anything smaller in GB with two decimals (never MB), and
evaluates to `"1.00 TB"`, `"1.00 GB"` and `"0.47 GB"` on the three claimed
inputs. -/
theorem c6_format_size :
    (∀ b : ℕ, 1024 ^ 4 ≤ b → ∃ s, format_size b = s ++ " TB") ∧
    (∀ b : ℕ, b < 1024 ^ 4 → ∃ s, format_size b = s ++ " GB") ∧
    format_size (2 ^ 40) = "1.00 TB" ∧
    format_size (2 ^ 30) = "1.00 GB" ∧
    format_size 500000000 = "0.47 GB" := by
  refine ⟨fun b hb => ⟨format2 ((b : ℚ) / 1024 ^ 4), ?_⟩,
    fun b hb => ⟨format2 ((b : ℚ) / 1024 ^ 3), ?_⟩, ?_, ?_, ?_⟩
  · rw [format_size, if_pos hb]
  · rw [format_size, if_neg (not_le.mpr hb)]
  · with_unfolding_all decide
  · with_unfolding_all decide
  · with_unfolding_all decide

/-- C6 witness: the two unit-selection clauses instantiated at `2^40` and
`0` bytes. -/
theorem c6_format_size_witness :
    (∃ s, format_size (2 ^ 40) = s ++ " TB") ∧ ∃ s, format_size 0 = s ++ " GB" :=
  ⟨c6_format_size.1 (2 ^ 40) (by norm_num), c6_format_size.2.1 0 (by norm_num)⟩

/-- C7: disk throughput is `Δbytes / Δt` scaled to MB/s, computed for reads
and writes independently by the same formula on their respective counters;
a read-byte delta of 1048576 over `Δt = 0.01 s` gives exactly 100 MB/s,
formatted as `"100.00"`. -/
theorem c7_disk_io_throughput (prev prevw : ℕ) :
    (∀ (pi : ℚ) (c p : ℕ), read_speed pi c p = ((c : ℚ) - (p : ℚ)) / pi / 1024 ^ 2) ∧
    (∀ (pi : ℚ) (c p : ℕ), write_speed pi c p = ((c : ℚ) - (p : ℚ)) / pi / 1024 ^ 2) ∧
    read_speed (1/100) (prev + 1048576) prev = 100 ∧
    write_speed (1/100) (prevw + 1048576) prevw = 100 ∧
    format2 (read_speed (1/100) (prev + 1048576) prev) = "100.00" := by
  have hr : read_speed (1/100) (prev + 1048576) prev = 100 := by
    rw [read_speed]
    push_cast
    ring
  have hw : write_speed (1/100) (prevw + 1048576) prevw = 100 := by
    rw [write_speed]
    push_cast
    ring
  refine ⟨fun pi c p => ?_, fun pi c p => ?_, hr, hw, ?_⟩
  · rw [read_speed]; ring
  · rw [write_speed]; ring
  · rw [hr]
    with_unfolding_all decide

/-- C9: in the disk-usage table a partition whose usage read is permission
denied gets the literal `"Permission Denied"` sentinel in its four data
fields while every other partition's row is rendered normally, one row per
partition in order, and the table is built fine from zero or one
partitions. -/
theorem c9_disk_permission_denied (parts : List (String × Option DiskUsage)) (i : ℕ)
    (mp : String) (du : DiskUsage) :
    (disk_table_data parts).length = parts.length ∧
    (parts[i]? = some (mp, none) →
      (disk_table_data parts)[i]? =
        some [mp, "Permission Denied", "Permission Denied", "Permission Denied",
          "Permission Denied"]) ∧
    (parts[i]? = some (mp, some du) →
      (disk_table_data parts)[i]? =
        some [mp, format_size du.total, format_size du.used, format_size du.free,
          create_disk_usage_bar du.percent]) ∧
    disk_table_data [] = [] ∧
    disk_table_data [(mp, some du)] =
      [[mp, format_size du.total, format_size du.used, format_size du.free,
        create_disk_usage_bar du.percent]] := by
  refine ⟨List.length_map _ _, fun h => ?_, fun h => ?_, rfl, rfl⟩
  · rw [disk_table_data, List.getElem?_map, h]
    rfl
  · rw [disk_table_data, List.getElem?_map, h]
    rfl

/-- C9 witness: a two-partition list whose second partition is permission
denied, instantiated at indices 0 and 1. -/
theorem c9_disk_permission_denied_witness :
    (disk_table_data [("/", some ⟨2 ^ 40, 2 ^ 39, 2 ^ 39, 50⟩), ("/proc", none)])[1]? =
      some ["/proc", "Permission Denied", "Permission Denied", "Permission Denied",
        "Permission Denied"] ∧
    (disk_table_data [("/", some ⟨2 ^ 40, 2 ^ 39, 2 ^ 39, 50⟩), ("/proc", none)])[0]? =
      some ["/", format_size (2 ^ 40), format_size (2 ^ 39), format_size (2 ^ 39),
        create_disk_usage_bar 50] :=
  ⟨(c9_disk_permission_denied _ 1 "/proc" ⟨0, 0, 0, 0⟩).2.1 rfl,
   (c9_disk_permission_denied _ 0 "/" ⟨2 ^ 40, 2 ^ 39, 2 ^ 39, 50⟩).2.2.1 rfl⟩

/-- C10: the three bar renderers are extensionally equal — the same string
for every percentage and bar length — and differ only in their default
bar-length argument (CPU 10, memory 30, disk 30). -/
theorem c10_bar_renderers_equal (p : ℚ) (L : ℕ) :
    create_cpu_usage_bar p L = create_memory_usage_bar p L ∧
    create_memory_usage_bar p L = create_disk_usage_bar p L ∧
    create_cpu_usage_bar p = create_cpu_usage_bar p 10 ∧
    create_memory_usage_bar p = create_memory_usage_bar p 30 ∧
    create_disk_usage_bar p = create_disk_usage_bar p 30 :=
  ⟨rfl, rfl, rfl, rfl, rfl⟩

/-- Unfolding `chunkPad` on a nonempty list: one padded row of the first
`c` entries, then the rest. -/
lemma chunkPad_eq (c w : ℕ) (hc : 1 ≤ c) (l : List String) (hl : l ≠ []) :
    chunkPad c w l = padRow c w (l.take c) :: chunkPad c w (l.drop c) := by
  obtain ⟨e, rest, rfl⟩ := List.exists_cons_of_ne_nil hl
  obtain ⟨c', rfl⟩ : ∃ c', c = c' + 1 := ⟨c - 1, by omega⟩
  simp [chunkPad, List.take_succ_cons, List.drop_succ_cons]

/-- The flush points of the `display_cpu_usage_in_columns` loop coincide
with row-major chunk boundaries: from a pending row `buf` that started at a
column boundary, the loop produces exactly the padded chunks of
`buf ++ l`. -/
lemma cpu_rows_go_eq_chunkPad (c w n : ℕ) (hc : 1 ≤ c) :
    ∀ (l : List String) (i : ℕ) (buf : List String), l ≠ [] →
      buf.length < c → i % c = buf.length → i + l.length = n →
      cpu_rows_go c w n i buf l = chunkPad c w (buf ++ l) := by
  intro l
  induction l with
  | nil => exact fun i buf h => absurd rfl h
  | cons e rest ih =>
    intro i buf _ hbuf hmod hn
    by_cases hrest : rest = []
    · subst hrest
      have hlast : i = n - 1 := by
        simp only [List.length_cons, List.length_nil] at hn
        omega
      have hlen : (buf ++ [e]).length ≤ c := by
        simp only [List.length_append, List.length_cons, List.length_nil]
        omega
      simp only [cpu_rows_go, if_pos (Or.inr hlast)]
      rw [chunkPad_eq c w hc _ (by simp)]
      rw [List.take_of_length_le hlen, List.drop_eq_nil_of_le hlen]
      simp [chunkPad, padRow]
    · by_cases hfull : buf.length + 1 = c
      · have hcond : (i + 1) % c = 0 := by
          rw [← Nat.mod_add_mod, hmod, hfull, Nat.mod_self]
        have hlen2 : (buf ++ [e]).length = c := by
          simp only [List.length_append, List.length_cons, List.length_nil]
          omega
        simp only [cpu_rows_go, if_pos (Or.inl hcond)]
        rw [ih (i + 1) [] hrest (by simp only [List.length_nil]; omega)
          (by simp [hcond])
          (by simp only [List.length_cons] at hn ⊢; omega)]
        rw [chunkPad_eq c w hc (buf ++ e :: rest) (by simp)]
        have hsplit : buf ++ e :: rest = (buf ++ [e]) ++ rest := by simp
        rw [hsplit, ← hlen2, List.take_left, List.drop_left]
        simp [padRow, hlen2]
      · have hbuf1 : buf.length + 1 < c := by omega
        have hmod1 : (i + 1) % c = buf.length + 1 := by
          rw [← Nat.mod_add_mod, hmod, Nat.mod_eq_of_lt hbuf1]
        have hcond : ¬((i + 1) % c = 0 ∨ i = n - 1) := by
          push_neg
          refine ⟨by omega, ?_⟩
          have : 0 < rest.length := List.length_pos.mpr hrest
          simp only [List.length_cons] at hn
          omega
        simp only [cpu_rows_go, if_neg hcond]
        rw [ih (i + 1) (buf ++ [e]) hrest
          (by simp only [List.length_append, List.length_cons, List.length_nil]; omega)
          (by simp only [List.length_append, List.length_cons, List.length_nil]; omega)
          (by simp only [List.length_cons] at hn ⊢; omega)]
        congr 1
        simp

/-- The CPU row loop is row-major chunking with end-of-row padding. -/
lemma cpu_rows_eq_chunkPad (c w : ℕ) (hc : 1 ≤ c) (entries : List String) :
    cpu_rows c w entries = chunkPad c w entries := by
  cases entries with
  | nil => simp [cpu_rows, cpu_rows_go, chunkPad]
  | cons e rest =>
    have h := cpu_rows_go_eq_chunkPad c w (e :: rest).length hc (e :: rest) 0 []
      (by simp) (by simpa using hc) (by simp) (by simp)
    simpa [cpu_rows] using h

/-- C8: for every column count `c ≥ 1` the CPU section lays entries out
row-major — a new row after every `c` entries, the final partial row padded
with blank cells of the full cell width; 8 entries at 3 columns give rows
`[0,1,2]`, `[3,4,5]`, `[6,7,blank]`; and the aggregate row renders the mean
of all core percentages with the same bar function. -/
theorem c8_cpu_row_major_layout (columns column_width w : ℕ) (entries : List String)
    (ps : List ℚ) (e0 e1 e2 e3 e4 e5 e6 e7 : String) (hc : 1 ≤ columns) :
    cpu_rows columns column_width entries = chunkPad columns column_width entries ∧
    cpu_rows 3 w [e0, e1, e2, e3, e4, e5, e6, e7] =
      [[e0, e1, e2], [e3, e4, e5], [e6, e7, spaces w]] ∧
    average_cpu_usage_string ps =
      "Average CPU Usage: " ++ create_cpu_usage_bar (ps.sum / ps.length) := by
  refine ⟨cpu_rows_eq_chunkPad _ _ hc entries, ?_, rfl⟩
  simp [cpu_rows, cpu_rows_go, List.replicate]

/-- C8 witness: the layout equivalence instantiated at 3 columns of width 2
over four entries, and the concrete 8-entry instance. -/
theorem c8_cpu_row_major_layout_witness :
    cpu_rows 3 2 ["a", "b", "c", "d"] = chunkPad 3 2 ["a", "b", "c", "d"] ∧
    cpu_rows 3 2 ["a0", "a1", "a2", "a3", "a4", "a5", "a6", "a7"] =
      [["a0", "a1", "a2"], ["a3", "a4", "a5"], ["a6", "a7", spaces 2]] :=
  ⟨(c8_cpu_row_major_layout 3 2 2 ["a", "b", "c", "d"] [50]
      "a0" "a1" "a2" "a3" "a4" "a5" "a6" "a7" (by norm_num)).1,
   (c8_cpu_row_major_layout 3 2 2 ["a", "b", "c", "d"] [50]
      "a0" "a1" "a2" "a3" "a4" "a5" "a6" "a7" (by norm_num)).2.1⟩

/-- Looking up the updated user after `update_user`. -/
lemma lookup_update_self (acc : List (String × UserData)) (u : String) (c m : ℚ) :
    lookup_user u (update_user acc u c m) =
      some (match lookup_user u acc with
            | none => ⟨c, m, 1⟩
            | some d => ⟨d.cpu + c, d.memory + m, d.processes + 1⟩) := by
  induction acc with
  | nil => simp [update_user, lookup_user]
  | cons hd tl ih =>
    obtain ⟨v, d⟩ := hd
    by_cases hv : v = u
    · subst hv
      simp [update_user, lookup_user]
    · simp [update_user, lookup_user, hv, ih]

/-- `update_user` leaves every other user's entry unchanged. -/
lemma lookup_update_other (acc : List (String × UserData)) (u v : String) (c m : ℚ)
    (h : v ≠ u) : lookup_user v (update_user acc u c m) = lookup_user v acc := by
  induction acc with
  | nil => simp [update_user, lookup_user, Ne.symm h]
  | cons hd tl ih =>
    obtain ⟨x, d⟩ := hd
    by_cases hx : x = u
    · subst hx
      simp [update_user, lookup_user, Ne.symm h]
    · simp [update_user, lookup_user, hx, ih]

/-- A user is absent from the accumulator iff its key is absent. -/
lemma lookup_user_eq_none (u : String) (l : List (String × UserData)) :
    lookup_user u l = none ↔ u ∉ l.map Prod.fst := by
  induction l with
  | nil => simp [lookup_user]
  | cons hd tl ih =>
    obtain ⟨v, d⟩ := hd
    by_cases hv : v = u
    · subst hv
      simp [lookup_user]
    · simp [lookup_user, hv, ih, Ne.symm hv]

/-- `update_user` either keeps the key list or appends the fresh key. -/
lemma update_user_keys (acc : List (String × UserData)) (u : String) (c m : ℚ) :
    (update_user acc u c m).map Prod.fst = acc.map Prod.fst ∨
    ((update_user acc u c m).map Prod.fst = acc.map Prod.fst ++ [u] ∧
      u ∉ acc.map Prod.fst) := by
  induction acc with
  | nil =>
    right
    simp [update_user]
  | cons hd tl ih =>
    obtain ⟨v, d⟩ := hd
    by_cases hv : v = u
    · subst hv
      left
      simp [update_user]
    · cases ih with
      | inl h =>
        left
        simp [update_user, hv, h]
      | inr h =>
        right
        simp [update_user, hv, h.1, Ne.symm hv, h.2]

/-- The usernames in the aggregation accumulator are pairwise distinct. -/
lemma user_usage_keys_nodup (procs : List ProcInfo) :
    ((user_usage procs).map Prod.fst).Nodup := by
  suffices h : ∀ (l : List ProcInfo) (acc : List (String × UserData)),
      (acc.map Prod.fst).Nodup →
      ((l.foldl (fun acc p => if p.username = "" then acc
        else update_user acc p.username p.cpu_percent p.memory_percent) acc).map
          Prod.fst).Nodup by
    exact h procs [] (by simp)
  intro l
  induction l with
  | nil => exact fun acc h => h
  | cons p rest ih =>
    intro acc hacc
    simp only [List.foldl_cons]
    by_cases hp : p.username = ""
    · rw [if_pos hp]
      exact ih acc hacc
    · rw [if_neg hp]
      apply ih
      cases update_user_keys acc p.username p.cpu_percent p.memory_percent with
      | inl h =>
        rw [h]
        exact hacc
      | inr h =>
        rw [h.1]
        simp [List.nodup_append, hacc, h.2]

/-- A successful lookup returns a member pair. -/
lemma lookup_user_mem (u : String) (d : UserData) (l : List (String × UserData))
    (h : lookup_user u l = some d) : (u, d) ∈ l := by
  induction l with
  | nil => simp [lookup_user] at h
  | cons hd tl ih =>
    obtain ⟨v, e⟩ := hd
    by_cases hv : v = u
    · subst hv
      simp [lookup_user] at h
      simp [h]
    · simp only [lookup_user, if_neg hv] at h
      exact List.mem_cons_of_mem _ (ih h)

/-- With pairwise-distinct keys, every member pair is what lookup returns. -/
lemma mem_lookup_user (u : String) (d : UserData) (l : List (String × UserData))
    (hnd : (l.map Prod.fst).Nodup) (h : (u, d) ∈ l) : lookup_user u l = some d := by
  induction l with
  | nil => simp at h
  | cons hd tl ih =>
    obtain ⟨v, e⟩ := hd
    simp only [List.map_cons, List.nodup_cons] at hnd
    rcases List.mem_cons.mp h with heq | hmem
    · obtain ⟨h1, h2⟩ := Prod.mk.injEq .. ▸ heq
      simp [lookup_user, h1.symm, h2]
    · have hu : v ≠ u := by
        intro hv
        subst hv
        exact hnd.1 (List.mem_map.mpr ⟨(v, d), hmem, rfl⟩)
      simp only [lookup_user, if_neg hu]
      exact ih hnd.2 hmem

/-- The aggregation loop computes, for each nonempty username, the sums of
that user's per-process CPU and memory percentages and its process count,
on top of whatever the accumulator already held. -/
lemma user_usage_lookup_go (u : String) (hu : u ≠ "") (l : List ProcInfo) :
    ∀ acc : List (String × UserData),
      lookup_user u (l.foldl (fun acc p => if p.username = "" then acc
          else update_user acc p.username p.cpu_percent p.memory_percent) acc) =
        match lookup_user u acc with
        | none =>
            if (l.filter (fun p => p.username == u)).length = 0 then none
            else some ⟨((l.filter (fun p => p.username == u)).map ProcInfo.cpu_percent).sum,
                       ((l.filter (fun p => p.username == u)).map ProcInfo.memory_percent).sum,
                       (l.filter (fun p => p.username == u)).length⟩
        | some d =>
            some ⟨d.cpu + ((l.filter (fun p => p.username == u)).map ProcInfo.cpu_percent).sum,
                  d.memory + ((l.filter (fun p => p.username == u)).map ProcInfo.memory_percent).sum,
                  d.processes + (l.filter (fun p => p.username == u)).length⟩ := by
  induction l with
  | nil =>
    intro acc
    cases h : lookup_user u acc with
    | none => simp [h]
    | some d => simp [h]
  | cons p rest ih =>
    intro acc
    simp only [List.foldl_cons]
    by_cases hp : p.username = ""
    · have hne : (p.username == u) = false := by
        simp [hp, Ne.symm hu]
      rw [if_pos hp, ih acc]
      simp [List.filter_cons, hne]
    · rw [if_neg hp]
      by_cases hpu : p.username = u
      · have hbeq : (p.username == u) = true := by simp [hpu]
        rw [ih (update_user acc p.username p.cpu_percent p.memory_percent)]
        subst hpu
        rw [lookup_update_self]
        cases h : lookup_user p.username acc with
        | none =>
          simp only [h, List.filter_cons, hbeq, if_true, List.length_cons, List.map_cons,
            List.sum_cons]
          rw [if_neg (by omega)]
          simp only [UserData.mk.injEq, Option.some.injEq]
          exact ⟨trivial, trivial, by omega⟩
        | some d =>
          simp only [h, List.filter_cons, hbeq, if_true, List.length_cons, List.map_cons,
            List.sum_cons]
          simp only [UserData.mk.injEq, Option.some.injEq]
          exact ⟨by ring, by ring, by omega⟩
      · have hbeq : (p.username == u) = false := by simp [hpu]
        have hup : u ≠ p.username := fun hh => hpu hh.symm
        rw [ih (update_user acc p.username p.cpu_percent p.memory_percent)]
        rw [lookup_update_other _ _ _ _ _ hup]
        simp [List.filter_cons, hbeq]

/-- C5: each user's aggregate is the sum of its processes' raw CPU and
memory percentages with a process count; the displayed row divides the CPU
sum by the core count and leaves memory undivided; a user's row is in the
table iff normalized CPU% > 0.01 or memory% > 0.01; an empty filter result
renders the literal fallback message; and the spec's 4-core example yields
alice at 20.00 CPU, 15.00 memory, 2 processes with bob excluded. -/
theorem c5_user_aggregation (procs : List ProcInfo) (C : ℚ) (u : String) (d : UserData) :
    (u ≠ "" → lookup_user u (user_usage procs) =
      (if (procs.filter (fun p => p.username == u)).length = 0 then none
       else some ⟨((procs.filter (fun p => p.username == u)).map ProcInfo.cpu_percent).sum,
                  ((procs.filter (fun p => p.username == u)).map ProcInfo.memory_percent).sum,
                  (procs.filter (fun p => p.username == u)).length⟩)) ∧
    (lookup_user u (user_usage procs) = some d →
      (user_row C u d ∈ filtered_user_data C procs ↔
        d.cpu / C > cpu_threshold ∨ d.memory > memory_threshold)) ∧
    (filtered_user_data C procs = [] →
      display_user_usage C procs = Sum.inr "No users exceed the specified thresholds.\n") ∧
    filtered_user_data 4 [⟨"alice", 50, 10⟩, ⟨"alice", 30, 5⟩, ⟨"bob", 1/1000, 1/1000⟩] =
      [["alice", GREEN ++ ("20.00" ++ RESET_COLOR), GREEN ++ ("15.00" ++ RESET_COLOR), "2"]] := by
  refine ⟨fun hu => ?_, fun hl => ?_, fun h => ?_, ?_⟩
  · simpa [user_usage, lookup_user] using user_usage_lookup_go u hu procs []
  · constructor
    · intro hmem
      obtain ⟨y, hyf, hyr⟩ := List.mem_map.mp hmem
      obtain ⟨hymem, hypred⟩ := List.mem_filter.mp hyf
      have hy1 : y.1 = u := by
        simp only [user_row, List.cons.injEq] at hyr
        exact hyr.1
      have hy : (u, y.2) ∈ user_usage procs := by
        rw [← hy1, Prod.mk.eta]
        exact hymem
      have hlook := mem_lookup_user u y.2 _ (user_usage_keys_nodup procs) hy
      rw [hl] at hlook
      have hd : d = y.2 := Option.some.inj hlook
      rw [hd]
      exact of_decide_eq_true hypred
    · intro hpred
      exact List.mem_map.mpr ⟨(u, d),
        List.mem_filter.mpr ⟨lookup_user_mem u d _ hl, decide_eq_true hpred⟩, rfl⟩
  · simp [display_user_usage, h]
  · with_unfolding_all decide

/-- C5 witness: the aggregation, membership and fallback clauses
instantiated on the spec's example process lists. -/
theorem c5_user_aggregation_witness :
    lookup_user "alice" (user_usage
      [⟨"alice", 50, 10⟩, ⟨"alice", 30, 5⟩, ⟨"bob", 1/1000, 1/1000⟩]) = some ⟨80, 15, 2⟩ ∧
    user_row 4 "alice" ⟨80, 15, 2⟩ ∈ filtered_user_data 4
      [⟨"alice", 50, 10⟩, ⟨"alice", 30, 5⟩, ⟨"bob", 1/1000, 1/1000⟩] ∧
    display_user_usage 4 [⟨"bob", 1/1000, 1/1000⟩] =
      Sum.inr "No users exceed the specified thresholds.\n" := by
  have halice : lookup_user "alice" (user_usage
      [⟨"alice", 50, 10⟩, ⟨"alice", 30, 5⟩, ⟨"bob", 1/1000, 1/1000⟩]) = some ⟨80, 15, 2⟩ := by
    rw [(c5_user_aggregation
      [⟨"alice", 50, 10⟩, ⟨"alice", 30, 5⟩, ⟨"bob", 1/1000, 1/1000⟩] 4 "alice" ⟨80, 15, 2⟩).1
      (by decide)]
    with_unfolding_all decide
  refine ⟨halice, ?_, ?_⟩
  · exact ((c5_user_aggregation
      [⟨"alice", 50, 10⟩, ⟨"alice", 30, 5⟩, ⟨"bob", 1/1000, 1/1000⟩] 4 "alice" ⟨80, 15, 2⟩).2.1
      halice).mpr (by with_unfolding_all decide)
  · exact (c5_user_aggregation [⟨"bob", 1/1000, 1/1000⟩] 4 "x" ⟨0, 0, 0⟩).2.2.1
      (by with_unfolding_all decide)
